import Mathlib

/-!
Shallow embedding of `src/fetch_data.py` (litter-box activity statistics).

Python floats are modelled as exact rationals (`ℚ`); `datetime` instants are
modelled by a `Timestamp` record carrying the epoch instant (in seconds, used
for ordering and duration arithmetic) together with the local-timezone
renderings that the source obtains via `astimezone(LOCAL_TZ)` / `strftime`
(hour of day, calendar-date key, weekday, display strings).  The only fallible
operation in the source is `float()` applied to the group captured by the
weight regex (it raises `ValueError` on strings such as `".."`), so the event
fold and `parse_activity_history` return `Option`.
-/

/-- `startsWithChars pat l` : `pat` is a prefix of `l` (character lists). -/
def startsWithChars : List Char → List Char → Bool
  | [], _ => true
  | _ :: _, [] => false
  | p :: ps, c :: cs => p == c && startsWithChars ps cs

/-- `containsChars pat l` : `pat` occurs as a contiguous substring of `l`. -/
def containsChars (pat : List Char) : List Char → Bool
  | [] => startsWithChars pat []
  | l@(_ :: t) => startsWithChars pat l || containsChars pat t

/-- Python's `pat in s` substring test. -/
def strContains (s pat : String) : Bool := containsChars pat.toList s.toList

/-- Model of a timezone-aware `datetime`: the instant (epoch seconds, exact)
plus the local-timezone renderings the source reads off it. -/
structure Timestamp where
  /-- seconds since the epoch; `datetime` ordering and subtraction use this -/
  epoch : ℚ
  /-- `astimezone(LOCAL_TZ).hour` -/
  localHour : Fin 24
  /-- `strftime("%Y-%m-%d")` of the local time -/
  dateKey : String
  /-- `weekday()` of the local time (0 = Monday .. 6 = Sunday) -/
  weekday : Fin 7
  /-- `strftime("%a")` of the local time -/
  weekdayName : String
  /-- `strftime("%m/%d")` of the local time -/
  monthDay : String
  /-- `strftime("%b %d")` of the local time -/
  fmtBD : String
  /-- `strftime("%b %d, %Y")` of the local time -/
  fmtBDY : String
deriving DecidableEq

/-- One record of the activity history: `{action, timestamp}`. -/
structure Activity where
  action : String
  timestamp : Timestamp
deriving DecidableEq

/-- `CatVisit` dataclass of `fetch_data.py`. -/
structure CatVisit where
  timestamp : Timestamp
  weight_lbs : Option ℚ := none
  clean_cycle_duration_seconds : Option ℚ := none
deriving DecidableEq

/-- The mutable state of the event loop in `parse_activity_history`. -/
structure PState where
  visits : List CatVisit
  weights : List ℚ
  clean_cycles_completed : Nat
  sensor_interruptions : Nat
  current_visit : Option CatVisit
  cycle_start_time : Option Timestamp
deriving DecidableEq

/-- State at the top of the loop: empty lists, zero counters, no open visit. -/
def initState : PState :=
  { visits := [], weights := [], clean_cycles_completed := 0,
    sensor_interruptions := 0, current_visit := none, cycle_start_time := none }

/-- `"CAT_DETECTED" in action_str or action_str == "CD"` -/
def isCatDetectedAct (s : String) : Bool := strContains s "CAT_DETECTED" || s == "CD"

/-- `"Pet Weight Recorded" in action_str` -/
def isWeightAct (s : String) : Bool := strContains s "Pet Weight Recorded"

/-- `"CLEAN_CYCLE:" in action_str or action_str == "CCP"` -/
def isCycleStartAct (s : String) : Bool := strContains s "CLEAN_CYCLE:" || s == "CCP"

/-- `"CLEAN_CYCLE_COMPLETE" in action_str or action_str == "CCC"` -/
def isCycleCompleteAct (s : String) : Bool := strContains s "CLEAN_CYCLE_COMPLETE" || s == "CCC"

/-- `"CAT_SENSOR_INTERRUPTED" in action_str or action_str == "CSI"` -/
def isSensorAct (s : String) : Bool := strContains s "CAT_SENSOR_INTERRUPTED" || s == "CSI"

/-- digit or dot, the character class `[\d.]` of the weight regex -/
def isDigitOrDot (c : Char) : Bool := c.isDigit || c == '.'

/-- After the captured group, the regex requires `\s*` then the literal
`lbs`.  (`\s` is modelled by `Char.isWhitespace`; the difference on exotic
whitespace characters is immaterial here.) -/
def matchSpacesLbs : List Char → Bool
  | 'l' :: 'b' :: 's' :: _ => true
  | c :: rest => if c.isWhitespace then matchSpacesLbs rest else false
  | [] => false

/-- `re.search(r"([\d.]+)\s*lbs", s)`: scan for the leftmost position with a
nonempty run of `[\d.]` characters followed by `\s*lbs`, and return the
captured run.  (Backtracking inside `[\d.]+` can never help: a shortened run
would leave a digit or dot where `\s*lbs` must match, so the greedy maximal
run is the only candidate at each position, as in the source regex.) -/
def searchWeightGroup : List Char → Option (List Char)
  | [] => none
  | l@(_ :: t) =>
    let run := l.takeWhile isDigitOrDot
    if run.isEmpty then searchWeightGroup t
    else if matchSpacesLbs (l.dropWhile isDigitOrDot) then some run
    else searchWeightGroup t

/-- Decimal value of a digit string (most significant first). -/
def natOfDigits (l : List Char) : ℕ :=
  l.foldl (fun n c => 10 * n + (c.toNat - '0'.toNat)) 0

/-- Python `float()` applied to a string of digits and dots: fails (raises
`ValueError`) unless there is at most one dot and at least one digit;
otherwise reads the decimal exactly. -/
def pyFloatOfDigitsDots (l : List Char) : Option ℚ :=
  if l.count '.' > 1 then none
  else if l.all (· == '.') then none
  else
    let ip := l.takeWhile (· != '.')
    let fp := (l.dropWhile (· != '.')).drop 1
    some ((natOfDigits ip : ℚ) + (natOfDigits fp : ℚ) / (10 ^ fp.length))

/-- The `"Pet Weight Recorded"` branch: on a regex match, convert the group
with `float` (fallible), append to the global weight list, and if a visit is
open set its `weight_lbs`; with no match the event is ignored. -/
def weightStep (st : PState) (action_str : String) : Option PState :=
  match searchWeightGroup action_str.toList with
  | some g =>
    match pyFloatOfDigitsDots g with
    | some weight =>
      some { st with weights := st.weights ++ [weight],
                     current_visit := st.current_visit.map
                       (fun v => { v with weight_lbs := some weight }) }
    | none => none
  | none => some st

/-- The `CLEAN_CYCLE_COMPLETE` branch, mirroring the three sequential
statements of the source: increment the counter; if both a cycle start and an
open visit exist, store the duration on the open visit; if an open visit
exists, append it and clear it; clear the cycle start. -/
def cycleCompleteStep (st : PState) (timestamp : Timestamp) : PState :=
  let st1 := { st with clean_cycles_completed := st.clean_cycles_completed + 1 }
  let st2 :=
    match st1.cycle_start_time, st1.current_visit with
    | some cycle_start, some v =>
      let duration := timestamp.epoch - cycle_start.epoch
      let v2 := { v with clean_cycle_duration_seconds := some duration }
      { st1 with current_visit := some v2 }
    | _, _ => st1
  let st3 :=
    match st2.current_visit with
    | some v => { st2 with visits := st2.visits ++ [v], current_visit := none }
    | none => st2
  { st3 with cycle_start_time := none }

/-- One iteration of the event loop of `parse_activity_history`
(the `if/elif` dispatch on `action_str`). -/
def processActivity (st : PState) (a : Activity) : Option PState :=
  let action_str := a.action
  let timestamp := a.timestamp
  if isCatDetectedAct action_str then
    some { st with current_visit := some { timestamp := timestamp } }
  else if isWeightAct action_str then
    weightStep st action_str
  else if isCycleStartAct action_str then
    some { st with cycle_start_time := some timestamp }
  else if isCycleCompleteAct action_str then
    some (cycleCompleteStep st timestamp)
  else if isSensorAct action_str then
    some { st with sensor_interruptions := st.sensor_interruptions + 1 }
  else
    some st

/-- The whole event loop: `for activity in reversed(activities): ...`
(the raw history arrives newest-first and is folded oldest-first). -/
def runReducer (activities : List Activity) : Option PState :=
  List.foldlM processActivity initState activities.reverse

/-- `min(...)` over timestamps: first minimum wins (Python `min` replaces the
running best only on a strictly smaller item); `datetime` ordering is the
instant, i.e. `epoch`.  `none` on the empty list. -/
def pyMinTs : List Timestamp → Option Timestamp
  | [] => none
  | t :: ts => some (ts.foldl (fun b x => if x.epoch < b.epoch then x else b) t)

/-- `max(...)` over timestamps, first maximum wins. -/
def pyMaxTs : List Timestamp → Option Timestamp
  | [] => none
  | t :: ts => some (ts.foldl (fun b x => if b.epoch < x.epoch then x else b) t)

/-- `min` over a list of rationals (`none` on the empty list). -/
def listMinQ : List ℚ → Option ℚ
  | [] => none
  | x :: xs => some (xs.foldl (fun b y => if y < b then y else b) x)

/-- `max` over a list of rationals (`none` on the empty list). -/
def listMaxQ : List ℚ → Option ℚ
  | [] => none
  | x :: xs => some (xs.foldl (fun b y => if b < y then y else b) x)

/-- Increment key `k` in an insertion-ordered counter
(`defaultdict(int)`; a fresh key is appended at the end). -/
def bumpKey (m : List (Nat × Nat)) (k : Nat) : List (Nat × Nat) :=
  match m with
  | [] => [(k, 1)]
  | (k', v) :: rest => if k' = k then (k', v + 1) :: rest else (k', v) :: bumpKey rest k

/-- `visits_by_hour`: count visits per local hour, keys in insertion order. -/
def visitsByHour (visits : List CatVisit) : List (Nat × Nat) :=
  visits.foldl (fun m v => bumpKey m v.timestamp.localHour.val) []

/-- `visits_by_hour.get(h, 0)` (also `by_hour.get(peak_hour, 0)`). -/
def hourCount (m : List (Nat × Nat)) (h : Nat) : Nat :=
  match m.find? (fun p => p.1 == h) with
  | some p => p.2
  | none => 0

/-- Value of a `visits_by_date` entry. -/
structure DateInfo where
  count : Nat
  weekday : Fin 7
  weekday_name : String
  display : String
deriving DecidableEq

/-- Add one visit at local time `t` to the `visits_by_date` dict: a new date
key is appended with the weekday/display data of this first visit, an
existing key just has its count incremented. -/
def bumpDate (m : List (String × DateInfo)) (t : Timestamp) : List (String × DateInfo) :=
  match m with
  | [] => [(t.dateKey, { count := 1, weekday := t.weekday,
                         weekday_name := t.weekdayName, display := t.monthDay })]
  | (k, i) :: rest =>
    if k = t.dateKey then (k, { i with count := i.count + 1 }) :: rest
    else (k, i) :: bumpDate rest t

/-- `visits_by_date`: per-date info, keys in insertion (= visit) order. -/
def visitsByDate (visits : List CatVisit) : List (String × DateInfo) :=
  visits.foldl (fun m v => bumpDate m v.timestamp) []

/-- `visit_gaps`: `visits[i].timestamp - visits[i-1].timestamp` in seconds for
`i = 1 .. len-1`. -/
def visitGaps (visits : List CatVisit) : List ℚ :=
  ((visits.drop 1).zip visits).map (fun p => p.1.timestamp.epoch - p.2.timestamp.epoch)

/-- Lines 117-129: weight trend and change, defined only for `>= 4` samples.
Returns the pair `(weight_trend, weight_change)`. -/
def weightTrendChange (weights : List ℚ) : Option String × Option ℚ :=
  if 4 ≤ weights.length then
    let mid := weights.length / 2
    let first_half_avg := (weights.take mid).sum / (mid : ℚ)
    let second_half_avg := (weights.drop mid).sum / ((weights.length - mid : ℕ) : ℚ)
    let weight_change := second_half_avg - first_half_avg
    let weight_trend :=
      if weight_change > 1/10 then "gaining"
      else if weight_change < -(1/10) then "losing"
      else "stable"
    (some weight_trend, some weight_change)
  else (none, none)

/-- Python `max(periods, key=lambda x: x[0])`: first pair with the greatest
first component wins (strictly greater replaces). -/
def pyMaxByFst (l : List (Nat × String)) : Nat × String :=
  match l with
  | [] => (0, "")
  | p :: rest => rest.foldl (fun best q => if q.1 > best.1 then q else best) p

/-- Lines 134-148: the time-of-day dominance rule, producing zero or one
trait label from `visits_by_hour`. -/
def timeOfDayTrait (by_hour : List (Nat × Nat)) : List String :=
  if by_hour.isEmpty then []
  else
    let night_visits := ((List.range' 0 6).map (hourCount by_hour)).sum
    let morning_visits := ((List.range' 6 6).map (hourCount by_hour)).sum
    let afternoon_visits := ((List.range' 12 6).map (hourCount by_hour)).sum
    let evening_visits := ((List.range' 18 6).map (hourCount by_hour)).sum
    let periods := [(night_visits, "Night Owl"), (morning_visits, "Early Bird"),
                    (afternoon_visits, "Afternoon Aristocat"),
                    (evening_visits, "Evening Eliminator")]
    let dominant_period := pyMaxByFst periods
    if dominant_period.1 > 0 then [dominant_period.2] else []

/-- Lines 150-157: the regularity rule.  The source compares
`std_dev_hours = sqrt(variance)/3600` against 2 and 6; since `variance >= 0`
and `sqrt` is monotone these tests are exactly `variance < 7200^2` and
`variance > 21600^2`, which is how the (rational-valued) model states them. -/
def regularityTrait (visit_gaps : List ℚ) : List String :=
  if visit_gaps.isEmpty then []
  else
    let avg_gap := visit_gaps.sum / (visit_gaps.length : ℚ)
    let gap_variance := (visit_gaps.map (fun g => (g - avg_gap) ^ 2)).sum / (visit_gaps.length : ℚ)
    if gap_variance < 7200 ^ 2 then ["Creature of Habit"]
    else if gap_variance > 21600 ^ 2 then ["Chaotic Pooper"]
    else []

/-- Lines 159-169: the weekly-rhythm rule (`1.3` is the decimal `13/10`). -/
def weeklyTrait (by_date : List (String × DateInfo)) : List String :=
  if by_date.isEmpty then []
  else
    let weekend_visits := ((by_date.filter (fun p => 5 ≤ p.2.weekday.val)).map (fun p => p.2.count)).sum
    let weekday_visits := ((by_date.filter (fun p => p.2.weekday.val < 5)).map (fun p => p.2.count)).sum
    let wke := (by_date.filter (fun p => 5 ≤ p.2.weekday.val)).length
    let wkd := (by_date.filter (fun p => p.2.weekday.val < 5)).length
    let weekend_days := if wke = 0 then 1 else wke
    let weekday_days := if wkd = 0 then 1 else wkd
    let weekend_rate := (weekend_visits : ℚ) / (weekend_days : ℚ)
    let weekday_rate := (weekday_visits : ℚ) / (weekday_days : ℚ)
    if weekend_rate > weekday_rate * (13/10) then ["Weekend Warrior"]
    else if weekday_rate > weekend_rate * (13/10) then ["Weekday Regular"]
    else []

/-- The dict returned by `parse_activity_history`.  Every key is always
present; `date_range` is `(None, None)` or a pair of timestamps (the source
always sets both components together, so the pair is one `Option`). -/
structure Stats where
  visits : List CatVisit
  weights : List ℚ
  clean_cycles_completed : Nat
  sensor_interruptions : Nat
  date_range : Option (Timestamp × Timestamp)
  days_covered : ℚ
  visits_by_hour : List (Nat × Nat)
  visits_by_date : List (String × DateInfo)
  longest_gap : Option ℚ
  shortest_gap : Option ℚ
  weight_trend : Option String
  weight_change : Option ℚ
  personality_traits : List String
deriving DecidableEq

/-- `parse_activity_history`: the event loop followed by the aggregation and
classification stages.  `none` models an uncaught `ValueError` from
`float()` in the weight branch. -/
def parse_activity_history (activities : List Activity) : Option Stats := do
  let st ← runReducer activities
  let dr :=
    match pyMinTs (activities.map (fun a => a.timestamp)),
          pyMaxTs (activities.map (fun a => a.timestamp)) with
    | some s, some e => some (s, e)
    | _, _ => none
  let days_covered :=
    match dr with
    | some (s, e) => (e.epoch - s.epoch) / 86400
    | none => (0 : ℚ)
  let by_hour := visitsByHour st.visits
  let by_date := visitsByDate st.visits
  let gaps := visitGaps st.visits
  let tc := weightTrendChange st.weights
  some { visits := st.visits,
         weights := st.weights,
         clean_cycles_completed := st.clean_cycles_completed,
         sensor_interruptions := st.sensor_interruptions,
         date_range := dr,
         days_covered := days_covered,
         visits_by_hour := by_hour,
         visits_by_date := by_date,
         longest_gap := listMaxQ gaps,
         shortest_gap := listMinQ gaps,
         weight_trend := tc.1,
         weight_change := tc.2,
         personality_traits :=
           timeOfDayTrait by_hour ++ regularityTrait gaps ++ weeklyTrait by_date }

/-- Round-half-to-even to an integer (Python `round` tie policy). -/
def roundHalfEven (x : ℚ) : ℤ :=
  let f := ⌊x⌋
  let frac := x - (f : ℚ)
  if frac < 1/2 then f
  else if 1/2 < frac then f + 1
  else if f % 2 = 0 then f else f + 1

/-- Python `round(x, n)` on the exact-rational model of floats. -/
def pyRound (x : ℚ) (n : ℕ) : ℚ := ((roundHalfEven (x * 10 ^ n) : ℚ)) / 10 ^ n

/-- Python truncation `int(x)` (toward zero). -/
def pyTrunc (x : ℚ) : ℤ := if 0 ≤ x then ⌊x⌋ else -⌊-x⌋

/-- `format_duration`: `int()` of the seconds, `divmod` (floor division) into
hours and minutes, `"{h}h {m}m"` when hours > 0 else `"{m}m"`. -/
def format_duration (td_seconds : ℚ) : String :=
  let total_seconds := pyTrunc td_seconds
  let hours := total_seconds.fdiv 3600
  let remainder := total_seconds.fmod 3600
  let minutes := remainder.fdiv 60
  if hours > 0 then s!"{hours}h {minutes}m" else s!"{minutes}m"

/-- A gap field of the `timing` block:
`format_duration(g) if g else "N/A"`.  A missing gap is `None` (falsy) and a
zero `timedelta` is also falsy in Python, so both render as `"N/A"`. -/
def gapFieldStr (g : Option ℚ) : String :=
  match g with
  | some g => if g = 0 then "N/A" else format_duration g
  | none => "N/A"

/-- Python `x or 0` for the nullable `weight_change` value. -/
def pyOr0 (x : Option ℚ) : ℚ :=
  match x with
  | some c => if c = 0 then 0 else c
  | none => 0

/-- `days = stats["days_covered"] or 1`: the visits-per-day divisor
(`0.0` is falsy, so it is replaced by 1). -/
def effectiveDays (stats : Stats) : ℚ :=
  if stats.days_covered = 0 then 1 else stats.days_covered

/-- `max(by_hour, key=by_hour.get) if by_hour else 0`: first key with the
greatest count, in dict (insertion) order. -/
def peakHourKey (by_hour : List (Nat × Nat)) : Nat :=
  match by_hour with
  | [] => 0
  | p :: rest => (rest.foldl (fun best q => if q.2 > best.2 then q else best) p).1

/-- `f"{peak_hour % 12 or 12}:00 {'AM' if peak_hour < 12 else 'PM'}"` -/
def hourDisplay (h : Nat) : String :=
  let h12 := if h % 12 = 0 then 12 else h % 12
  let ampm := if h < 12 then "AM" else "PM"
  s!"{h12}:00 {ampm}"

/-- Insertion sort with `≤` on strings: `sorted(...)` over the (distinct)
date keys. -/
def insertStr (s : String) : List String → List String
  | [] => [s]
  | t :: ts => if s ≤ t then s :: t :: ts else t :: insertStr s ts

/-- `sorted(visits_by_date.keys())` (lexicographic by code point, as in
Python). -/
def sortStrings (l : List String) : List String :=
  l.foldr insertStr []

/-- Lookup of a date key in `visits_by_date` (keys produced by
`visitsByDate` are distinct; the fallback row is unreachable). -/
def dateInfoOf (m : List (String × DateInfo)) (k : String) : DateInfo :=
  match m.find? (fun p => p.1 == k) with
  | some p => p.2
  | none => { count := 0, weekday := 0, weekday_name := "", display := "" }

/-- `date_range` block of the output document.  The JSON values of `start`
and `end` are string-or-null; `display` is always a string in the source
(`""` when there is no data), typed as `Option String` because the
specification allows null there. -/
structure DateRangeOut where
  start : Option String
  «end» : Option String
  display : Option String
deriving DecidableEq

structure ChartRow where
  weekday : String
  display : String
  count : Nat
deriving DecidableEq

structure TimingOut where
  longest_gap : String
  shortest_gap : String
deriving DecidableEq

structure WeightOut where
  average : ℚ
  min : ℚ
  max : ℚ
  /-- `stats.get("weight_trend", "stable")`: the key is always present in the
  dict built by `parse_activity_history`, so this is just the stored value
  (possibly `None`) and the `"stable"` default is dead. -/
  trend : Option String
  change : ℚ
deriving DecidableEq

structure PeakHourOut where
  hour : Nat
  count : Nat
  display : String
deriving DecidableEq

structure BusiestDateOut where
  day_name : String
  display : String
  count : Nat
  is_weekend : Bool
deriving DecidableEq

structure RobotStatsOut where
  clean_cycles : Nat
  interruptions : Nat
deriving DecidableEq

structure OutputBlockOut where
  oz : ℚ
  lbs : ℚ
deriving DecidableEq

/-- The document written to `site/data.json`. -/
structure OutputDoc where
  cat_name : String
  robot_name : String
  generated_at : String
  date_range : DateRangeOut
  personality_traits : List String
  total_visits : Nat
  visits_per_day : ℚ
  chart_data : List ChartRow
  timing : TimingOut
  weight : WeightOut
  peak_hour : PeakHourOut
  busiest_date : Option BusiestDateOut
  robot_stats : RobotStatsOut
  output : OutputBlockOut
deriving DecidableEq

/-- `day_names` list of `build_data_json`. -/
def dayNames : List String :=
  ["Monday", "Tuesday", "Wednesday", "Thursday", "Friday", "Saturday", "Sunday"]

/-- `build_data_json(stats, robot_name, cat_name)`.  `datetime.now()` is the
one impure input; it enters as the `now` parameter. -/
def build_data_json (stats : Stats) (robot_name cat_name : String) (now : String) : OutputDoc :=
  let total_visits := stats.visits.length
  let visits_per_day := (total_visits : ℚ) / effectiveDays stats
  let weights := stats.weights
  let avg_weight := if weights.isEmpty then 0 else weights.sum / (weights.length : ℚ)
  let min_weight := (listMinQ weights).getD 0
  let max_weight := (listMaxQ weights).getD 0
  let by_hour := stats.visits_by_hour
  let peak_hour := peakHourKey by_hour
  let peak_count := hourCount by_hour peak_hour
  let by_date := stats.visits_by_date
  let sorted_dates := sortStrings (by_date.map (fun p => p.1))
  let chart_data := sorted_dates.map (fun d =>
    let i := dateInfoOf by_date d
    ChartRow.mk i.weekday_name i.display i.count)
  let busiest_date :=
    match by_date with
    | [] => none
    | p :: rest =>
      let b := rest.foldl (fun best q => if q.2.count > best.2.count then q else best) p
      some (BusiestDateOut.mk (dayNames.getD b.2.weekday.val "") b.2.display b.2.count
        (decide (5 ≤ b.2.weekday.val)))
  { cat_name := cat_name,
    robot_name := robot_name,
    generated_at := now,
    date_range :=
      { start := (stats.date_range.map (fun p => p.1.fmtBD)),
        «end» := (stats.date_range.map (fun p => p.2.fmtBDY)),
        display :=
          match stats.date_range with
          | some (s, e) => some (s.fmtBD ++ " - " ++ e.fmtBDY)
          | none => some "" },
    personality_traits := stats.personality_traits,
    total_visits := total_visits,
    visits_per_day := pyRound visits_per_day 1,
    chart_data := chart_data,
    timing := { longest_gap := gapFieldStr stats.longest_gap,
                shortest_gap := gapFieldStr stats.shortest_gap },
    weight := { average := pyRound avg_weight 1,
                min := pyRound min_weight 1,
                max := pyRound max_weight 1,
                trend := stats.weight_trend,
                change := pyRound (pyOr0 stats.weight_change) 2 },
    peak_hour := { hour := peak_hour, count := peak_count,
                   display := hourDisplay peak_hour },
    busiest_date := busiest_date,
    robot_stats := { clean_cycles := stats.clean_cycles_completed,
                     interruptions := stats.sensor_interruptions },
    output := { oz := pyRound ((total_visits : ℚ) * (5/2)) 0,
                lbs := pyRound ((total_visits : ℚ) * (5/2) / 16) 1 } }

/-- The weight change exactly as the claim words it: split the sample list at
`mid = n // 2`, `mean(second half) - mean(first half)`. -/
def specWeightChange (ws : List ℚ) : ℚ :=
  (ws.drop (ws.length / 2)).sum / ((ws.length - ws.length / 2 : ℕ) : ℚ)
    - (ws.take (ws.length / 2)).sum / ((ws.length / 2 : ℕ) : ℚ)

/-- Claim-side count of visits whose local hour lies in `[lo, hi)`. -/
def specPeriodCount (vs : List CatVisit) (lo hi : Nat) : Nat :=
  (vs.filter (fun v => decide (lo ≤ v.timestamp.localHour.val ∧ v.timestamp.localHour.val < hi))).length

/-- The time-of-day dominance rule as the claim words it: per-partition visit
counts over Night [0,6), Morning [6,12), Afternoon [12,18), Evening [18,24);
the first-listed greatest partition wins; its label is emitted iff its count
is strictly positive. -/
def specTimeOfDayTrait (vs : List CatVisit) : List String :=
  let periods := [(specPeriodCount vs 0 6, "Night Owl"),
                  (specPeriodCount vs 6 12, "Early Bird"),
                  (specPeriodCount vs 12 18, "Afternoon Aristocat"),
                  (specPeriodCount vs 18 24, "Evening Eliminator")]
  let dominant := pyMaxByFst periods
  if dominant.1 > 0 then [dominant.2] else []

/-- The stats value produced for an empty activity history. -/
def emptyStats : Stats :=
  { visits := [], weights := [], clean_cycles_completed := 0,
    sensor_interruptions := 0, date_range := none, days_covered := 0,
    visits_by_hour := [], visits_by_date := [], longest_gap := none,
    shortest_gap := none, weight_trend := none, weight_change := none,
    personality_traits := [] }

/-- A timestamp with the given instant and trivial local renderings
(used for concrete evaluation of the claims). -/
def mkTs (e : ℚ) : Timestamp :=
  { epoch := e, localHour := 0, dateKey := "", weekday := 0,
    weekdayName := "", monthDay := "", fmtBD := "", fmtBDY := "" }

/-- Concrete state with an open visit and a pending cycle start. -/
def exSt : PState :=
  { visits := [], weights := [], clean_cycles_completed := 3,
    sensor_interruptions := 1, current_visit := some { timestamp := mkTs 100 },
    cycle_start_time := some (mkTs 200) }

/-- A raw `CLEAN_CYCLE_COMPLETE` short-code event. -/
def exCCC : Activity := { action := "CCC", timestamp := mkTs 400 }

/-- A raw `CAT_DETECTED` short-code event. -/
def exCD : Activity := { action := "CD", timestamp := mkTs 500 }

/-- A raw activity history (newest first, as the source supplies it) whose
chronological order is two detection/completion pairs. -/
def exHistory : List Activity :=
  [ { action := "CCC", timestamp := mkTs 400 },
    { action := "CAT_DETECTED: cat detected", timestamp := mkTs 300 },
    { action := "CCC", timestamp := mkTs 200 },
    { action := "CAT_DETECTED: cat detected", timestamp := mkTs 100 } ]

lemma weightTrendChange_of_lt_four {ws : List ℚ} (h : ws.length < 4) :
    weightTrendChange ws = (none, none) := by
  unfold weightTrendChange
  rw [if_neg (by omega)]

lemma pyRound_zero (n : ℕ) : pyRound 0 n = 0 := by
  simp [pyRound, roundHalfEven]

/-- C2 (amended): on an empty history, `total_visits = 0`, the `date_range`
`start`/`end` fields are null while `display` is the empty string, the
computed `days_covered` is 0, `busiest_date` is null, both gap fields are
`"N/A"`, and `peak_hour` is `{0, 0, "12:00 AM"}`. -/
theorem empty_history_output_defaults (rn cn now : String) :
    parse_activity_history [] = some emptyStats ∧
    emptyStats.days_covered = 0 ∧
    (build_data_json emptyStats rn cn now).total_visits = 0 ∧
    (build_data_json emptyStats rn cn now).date_range.start = none ∧
    (build_data_json emptyStats rn cn now).date_range.«end» = none ∧
    (build_data_json emptyStats rn cn now).date_range.display = some "" ∧
    (build_data_json emptyStats rn cn now).busiest_date = none ∧
    (build_data_json emptyStats rn cn now).timing.longest_gap = "N/A" ∧
    (build_data_json emptyStats rn cn now).timing.shortest_gap = "N/A" ∧
    (build_data_json emptyStats rn cn now).peak_hour =
      { hour := 0, count := 0, display := "12:00 AM" } :=
  ⟨rfl, rfl, rfl, rfl, rfl, rfl, rfl, rfl, rfl, rfl⟩

/-- C2 (counterexample to the claim as stated): on the empty history the
`display` field of `date_range` is the empty string, not null. -/
theorem empty_history_display_not_null :
    (build_data_json emptyStats "Robot" "Kitty" "now").date_range.display ≠ none := by
  intro h
  rw [show (build_data_json emptyStats "Robot" "Kitty" "now").date_range.display
        = some "" from rfl] at h
  exact Option.noConfusion h

/-- C1 (what the code actually does): with fewer than 4 weight samples the
output weight block has `change = 0` but `trend = None` — the
`stats.get("weight_trend", "stable")` default is dead because the key is
always present, so the claimed/specified `"stable"` is never produced. -/
theorem weight_trend_none_of_few_samples (acts : List Activity) (st : Stats)
    (rn cn now : String) (hp : parse_activity_history acts = some st)
    (hlen : st.weights.length < 4) :
    (build_data_json st rn cn now).weight.trend = none ∧
    (build_data_json st rn cn now).weight.change = 0 := by
  cases hr : runReducer acts with
  | none => simp [parse_activity_history, hr] at hp
  | some red =>
    simp only [parse_activity_history, hr, Option.bind_eq_bind, Option.some_bind,
      Option.some.injEq] at hp
    subst hp
    simp only [show ∀ s rn cn now, (build_data_json s rn cn now).weight.trend
        = s.weight_trend from fun _ _ _ _ => rfl,
      show ∀ s rn cn now, (build_data_json s rn cn now).weight.change
        = pyRound (pyOr0 s.weight_change) 2 from fun _ _ _ _ => rfl] at *
    have hw : red.weights.length < 4 := hlen
    rw [weightTrendChange_of_lt_four hw]
    exact ⟨rfl, pyRound_zero 2⟩

/-- C1 witness: the empty history has 0 < 4 weight samples, and its output
weight block indeed carries `trend = None`, `change = 0`. -/
theorem weight_trend_none_of_few_samples_witness :
    parse_activity_history [] = some emptyStats ∧
    emptyStats.weights.length < 4 ∧
    (build_data_json emptyStats "Robot" "Kitty" "now").weight.trend = none ∧
    (build_data_json emptyStats "Robot" "Kitty" "now").weight.change = 0 :=
  ⟨rfl, by decide,
   (weight_trend_none_of_few_samples [] emptyStats "Robot" "Kitty" "now" rfl (by decide)).1,
   (weight_trend_none_of_few_samples [] emptyStats "Robot" "Kitty" "now" rfl (by decide)).2⟩

/-- C8: the output block is `oz = round(total_visits * 2.5, 0)` and
`lbs = round(total_visits * 2.5 / 16, 1)` with `total_visits` the length of
the visit list (`round` is Python's half-even rounding). -/
theorem output_estimate_formula (stats : Stats) (rn cn now : String) :
    (build_data_json stats rn cn now).total_visits = stats.visits.length ∧
    (build_data_json stats rn cn now).output.oz
      = pyRound ((stats.visits.length : ℚ) * (5/2)) 0 ∧
    (build_data_json stats rn cn now).output.lbs
      = pyRound ((stats.visits.length : ℚ) * (5/2) / 16) 1 :=
  ⟨rfl, rfl, rfl⟩

/-- C10: the visits-per-day divisor is never zero (a zero `days_covered` is
replaced by 1), and when `days_covered = 0` the reported `visits_per_day` is
`total_visits` rounded to one decimal place. -/
theorem visits_per_day_divisor_safe :
    (∀ stats : Stats, effectiveDays stats ≠ 0) ∧
    (∀ (stats : Stats) (rn cn now : String), stats.days_covered = 0 →
      (build_data_json stats rn cn now).visits_per_day
        = pyRound ((stats.visits.length : ℚ)) 1) := by
  constructor
  · intro stats
    unfold effectiveDays
    split
    · exact one_ne_zero
    · assumption
  · intro stats rn cn now h
    rw [show (build_data_json stats rn cn now).visits_per_day
          = pyRound ((stats.visits.length : ℚ) / effectiveDays stats) 1 from rfl,
      effectiveDays, if_pos h, div_one]

/-- C10 witness: the empty history has `days_covered = 0`, a nonzero
divisor, and `visits_per_day = round(0, 1)`. -/
theorem visits_per_day_divisor_safe_witness :
    effectiveDays emptyStats ≠ 0 ∧ emptyStats.days_covered = 0 ∧
    (build_data_json emptyStats "Robot" "Kitty" "now").visits_per_day
      = pyRound ((emptyStats.visits.length : ℚ)) 1 :=
  ⟨visits_per_day_divisor_safe.1 emptyStats, rfl,
   visits_per_day_divisor_safe.2 emptyStats "Robot" "Kitty" "now" rfl⟩

/-- C3: a `CycleCompleted` event (one that reaches the fourth branch of the
dispatch) increments the completed-cycle counter unconditionally, stores
`timestamp - cycle_start` on the open visit exactly when both a cycle start
and an open visit exist, appends the open visit (with or without a duration)
whenever one exists, and clears both `current_visit` and `cycle_start_time`. -/
theorem cycle_completed_step_spec (st : PState) (a : Activity)
    (h1 : isCatDetectedAct a.action = false) (h2 : isWeightAct a.action = false)
    (h3 : isCycleStartAct a.action = false) (h4 : isCycleCompleteAct a.action = true) :
    processActivity st a = some
      { visits := st.visits ++
          (match st.current_visit, st.cycle_start_time with
           | some v, some cs =>
             [{ v with clean_cycle_duration_seconds := some (a.timestamp.epoch - cs.epoch) }]
           | some v, none => [v]
           | none, _ => []),
        weights := st.weights,
        clean_cycles_completed := st.clean_cycles_completed + 1,
        sensor_interruptions := st.sensor_interruptions,
        current_visit := none,
        cycle_start_time := none } := by
  obtain ⟨vis, ws, cc, si, cv, cs⟩ := st
  unfold processActivity
  simp only [h1, h2, h3, h4, Bool.false_eq_true, if_false, if_true]
  cases cv <;> cases cs <;> simp [cycleCompleteStep]

/-- C3 witness: from a state with an open visit (started at instant 100) and
a pending cycle start (instant 200), a `"CCC"` event at instant 400 appends
the visit with duration `400 - 200 = 200` seconds, bumps the counter from 3
to 4, and clears both registers. -/
theorem cycle_completed_step_spec_witness :
    isCatDetectedAct exCCC.action = false ∧ isWeightAct exCCC.action = false ∧
    isCycleStartAct exCCC.action = false ∧ isCycleCompleteAct exCCC.action = true ∧
    processActivity exSt exCCC = some
      { visits := [{ timestamp := mkTs 100, weight_lbs := none,
                     clean_cycle_duration_seconds := some 200 }],
        weights := [], clean_cycles_completed := 4, sensor_interruptions := 1,
        current_visit := none, cycle_start_time := none } := by
  refine ⟨by decide, by decide, by decide, by decide, ?_⟩
  have h := cycle_completed_step_spec exSt exCCC (by decide) (by decide) (by decide) (by decide)
  rw [h]
  norm_num [exSt, exCCC, mkTs]

/-- C4: a `CatDetected` event replaces whatever open visit existed by a fresh
open visit at its own timestamp, leaving the visit list (and everything
else) untouched, so the discarded visit never reaches the output; and a
lone `CatDetected` event yields zero visits and a zero completed-cycle
counter. -/
theorem cat_detected_step_spec :
    (∀ (st : PState) (a : Activity), isCatDetectedAct a.action = true →
      processActivity st a
        = some { st with current_visit := some { timestamp := a.timestamp } }) ∧
    (∀ a : Activity, isCatDetectedAct a.action = true →
      (parse_activity_history [a]).map (fun s => (s.visits, s.clean_cycles_completed))
        = some ([], 0)) := by
  have hstep : ∀ (st : PState) (a : Activity), isCatDetectedAct a.action = true →
      processActivity st a
        = some { st with current_visit := some { timestamp := a.timestamp } } := by
    intro st a h
    unfold processActivity
    simp only [h, if_true]
  refine ⟨hstep, ?_⟩
  intro a h
  have hrun : runReducer [a]
      = some { initState with current_visit := some { timestamp := a.timestamp } } := by
    simp only [runReducer, List.reverse_cons, List.reverse_nil, List.nil_append,
      List.foldlM_cons, List.foldlM_nil, hstep initState a h, Option.some_bind]
    rfl
  simp [parse_activity_history, hrun, initState]

/-- C4 witness: a concrete `"CD"` event over the state with an open visit
discards that visit and opens a new one at instant 500; a lone `"CD"` event
parses to zero visits and zero completed cycles. -/
theorem cat_detected_step_spec_witness :
    isCatDetectedAct exCD.action = true ∧
    processActivity exSt exCD
      = some { exSt with current_visit := some { timestamp := exCD.timestamp } } ∧
    (parse_activity_history [exCD]).map (fun s => (s.visits, s.clean_cycles_completed))
      = some ([], 0) :=
  ⟨by decide, cat_detected_step_spec.1 exSt exCD (by decide),
   cat_detected_step_spec.2 exCD (by decide)⟩

lemma weightTrendChange_eq_spec {ws : List ℚ} (h : 4 ≤ ws.length) :
    weightTrendChange ws
      = (some (if 1/10 < specWeightChange ws then "gaining"
               else if specWeightChange ws < -(1/10) then "losing" else "stable"),
         some (specWeightChange ws)) := by
  unfold weightTrendChange specWeightChange
  rw [if_pos h]

/-- C6: with at least 4 samples, the stored change is exactly
`mean(second half) - mean(first half)` at split `mid = n // 2`, the trend is
`"gaining"` iff `change > 0.1` and `"losing"` iff `change < -0.1`, otherwise
`"stable"`; on `[10.0, 10.0, 10.1, 10.1]` the change is exactly `0.1` and the
strict threshold yields `"stable"`. -/
theorem weight_trend_thresholds :
    (∀ ws : List ℚ, 4 ≤ ws.length →
      (weightTrendChange ws).2 = some (specWeightChange ws) ∧
      ((weightTrendChange ws).1 = some "gaining" ↔ 1/10 < specWeightChange ws) ∧
      ((weightTrendChange ws).1 = some "losing" ↔ specWeightChange ws < -(1/10)) ∧
      ((weightTrendChange ws).1 = some "stable" ↔
        ¬ 1/10 < specWeightChange ws ∧ ¬ specWeightChange ws < -(1/10))) ∧
    specWeightChange [10, 10, 101/10, 101/10] = 1/10 ∧
    weightTrendChange [10, 10, 101/10, 101/10] = (some "stable", some (1/10)) := by
  have hmain : ∀ ws : List ℚ, 4 ≤ ws.length →
      (weightTrendChange ws).2 = some (specWeightChange ws) ∧
      ((weightTrendChange ws).1 = some "gaining" ↔ 1/10 < specWeightChange ws) ∧
      ((weightTrendChange ws).1 = some "losing" ↔ specWeightChange ws < -(1/10)) ∧
      ((weightTrendChange ws).1 = some "stable" ↔
        ¬ 1/10 < specWeightChange ws ∧ ¬ specWeightChange ws < -(1/10)) := by
    intro ws h
    rw [weightTrendChange_eq_spec h]
    refine ⟨rfl, ?_, ?_, ?_⟩
    · by_cases h1 : 1/10 < specWeightChange ws
      · rw [if_pos h1]
        exact ⟨fun _ => h1, fun _ => rfl⟩
      · by_cases h2 : specWeightChange ws < -(1/10)
        · rw [if_neg h1, if_pos h2]
          exact ⟨fun hx => absurd (Option.some.inj hx) (by decide),
                 fun hx => absurd hx h1⟩
        · rw [if_neg h1, if_neg h2]
          exact ⟨fun hx => absurd (Option.some.inj hx) (by decide),
                 fun hx => absurd hx h1⟩
    · by_cases h1 : 1/10 < specWeightChange ws
      · rw [if_pos h1]
        refine ⟨fun hx => absurd (Option.some.inj hx) (by decide), fun hx => ?_⟩
        exact absurd h1 (not_lt_of_gt (lt_trans hx (by norm_num)))
      · by_cases h2 : specWeightChange ws < -(1/10)
        · rw [if_neg h1, if_pos h2]
          exact ⟨fun _ => h2, fun _ => rfl⟩
        · rw [if_neg h1, if_neg h2]
          exact ⟨fun hx => absurd (Option.some.inj hx) (by decide),
                 fun hx => absurd hx h2⟩
    · by_cases h1 : 1/10 < specWeightChange ws
      · rw [if_pos h1]
        exact ⟨fun hx => absurd (Option.some.inj hx) (by decide),
               fun hx => absurd h1 hx.1⟩
      · by_cases h2 : specWeightChange ws < -(1/10)
        · rw [if_neg h1, if_pos h2]
          exact ⟨fun hx => absurd (Option.some.inj hx) (by decide),
                 fun hx => absurd h2 hx.2⟩
        · rw [if_neg h1, if_neg h2]
          exact ⟨fun _ => ⟨h1, h2⟩, fun _ => rfl⟩
  have hval : specWeightChange [10, 10, 101/10, 101/10] = 1/10 := by
    norm_num [specWeightChange]
  refine ⟨hmain, hval, ?_⟩
  rw [weightTrendChange_eq_spec (by norm_num), hval]
  norm_num

/-- C6 witness: the threshold characterisation applied to the concrete
boundary sample list. -/
theorem weight_trend_thresholds_witness :
    4 ≤ ([10, 10, 101/10, 101/10] : List ℚ).length ∧
    ((weightTrendChange [10, 10, 101/10, 101/10]).2
        = some (specWeightChange [10, 10, 101/10, 101/10]) ∧
      ((weightTrendChange [10, 10, 101/10, 101/10]).1 = some "gaining"
        ↔ 1/10 < specWeightChange [10, 10, 101/10, 101/10]) ∧
      ((weightTrendChange [10, 10, 101/10, 101/10]).1 = some "losing"
        ↔ specWeightChange [10, 10, 101/10, 101/10] < -(1/10)) ∧
      ((weightTrendChange [10, 10, 101/10, 101/10]).1 = some "stable"
        ↔ ¬ 1/10 < specWeightChange [10, 10, 101/10, 101/10]
          ∧ ¬ specWeightChange [10, 10, 101/10, 101/10] < -(1/10))) :=
  ⟨by norm_num, weight_trend_thresholds.1 [10, 10, 101/10, 101/10] (by norm_num)⟩

lemma processActivity_card_le {st st' : PState} {a : Activity}
    (h : processActivity st a = some st')
    (hle : st.visits.length ≤ st.clean_cycles_completed) :
    st'.visits.length ≤ st'.clean_cycles_completed := by
  simp only [processActivity] at h
  split_ifs at h with hc hw hcs hcc hsi
  · exact (Option.some.inj h) ▸ hle
  · unfold weightStep at h
    rcases hg : searchWeightGroup a.action.toList with _ | g
    · simp only [hg] at h
      exact (Option.some.inj h) ▸ hle
    · simp only [hg] at h
      rcases hf : pyFloatOfDigitsDots g with _ | w
      · simp only [hf] at h
        exact Option.noConfusion h
      · simp only [hf] at h
        exact (Option.some.inj h) ▸ hle
  · exact (Option.some.inj h) ▸ hle
  · obtain rfl : cycleCompleteStep st a.timestamp = st' := Option.some.inj h
    obtain ⟨vis, ws, cc, si, cv, cs⟩ := st
    cases cv <;> cases cs <;>
      simp_all [cycleCompleteStep] <;> omega
  · exact (Option.some.inj h) ▸ hle
  · exact (Option.some.inj h) ▸ hle

lemma foldlM_visits_card_le (l : List Activity) :
    ∀ st : PState, st.visits.length ≤ st.clean_cycles_completed →
    (List.foldlM processActivity st l).elim True
      (fun st' => st'.visits.length ≤ st'.clean_cycles_completed) := by
  induction l with
  | nil => intro st h; simpa using h
  | cons a t ih =>
    intro st h
    rw [List.foldlM_cons]
    cases hp : processActivity st a with
    | none => simp
    | some st1 =>
      simpa using ih st1 (processActivity_card_le hp h)

/-- C9: the reconstructed visit list is never longer than the completed-cycle
counter, since a visit is appended only in the `CLEAN_CYCLE_COMPLETE` branch,
which always increments the counter. -/
theorem visits_card_le_clean_cycles (acts : List Activity) :
    (parse_activity_history acts).elim True
      (fun st => st.visits.length ≤ st.clean_cycles_completed) := by
  cases hr : runReducer acts with
  | none => simp [parse_activity_history, hr]
  | some red =>
    have hinv := foldlM_visits_card_le acts.reverse initState (by simp [initState])
    rw [show List.foldlM processActivity initState acts.reverse = runReducer acts from rfl,
      hr] at hinv
    simpa [parse_activity_history, hr] using hinv

lemma processActivity_shape {st st' : PState} {a : Activity}
    (h : processActivity st a = some st') :
    (st'.visits = st.visits ∧
      (st'.current_visit = st.current_visit ∨
       st'.current_visit = some { timestamp := a.timestamp } ∨
       (∃ v w, st.current_visit = some v ∧ st'.current_visit = some w ∧
          w.timestamp = v.timestamp))) ∨
    (∃ v w, st.current_visit = some v ∧ w.timestamp = v.timestamp ∧
       st'.visits = st.visits ++ [w] ∧ st'.current_visit = none) := by
  simp only [processActivity] at h
  split_ifs at h with hc hw hcs hcc hsi
  · obtain rfl := Option.some.inj h
    exact Or.inl ⟨rfl, Or.inr (Or.inl rfl)⟩
  · unfold weightStep at h
    rcases hg : searchWeightGroup a.action.toList with _ | g
    · simp only [hg] at h
      obtain rfl := Option.some.inj h
      exact Or.inl ⟨rfl, Or.inl rfl⟩
    · simp only [hg] at h
      rcases hf : pyFloatOfDigitsDots g with _ | w
      · simp only [hf] at h
        exact Option.noConfusion h
      · simp only [hf] at h
        obtain rfl := Option.some.inj h
        rcases hcv : st.current_visit with _ | v
        · exact Or.inl ⟨rfl, Or.inl (by simp [hcv])⟩
        · exact Or.inl ⟨rfl, Or.inr (Or.inr ⟨v, { v with weight_lbs := some w }, rfl, rfl, rfl⟩)⟩
  · obtain rfl := Option.some.inj h
    exact Or.inl ⟨rfl, Or.inl rfl⟩
  · obtain rfl := Option.some.inj h
    obtain ⟨vis, ws, cc, si, cv, cs⟩ := st
    rcases cv with _ | v
    · cases cs <;> exact Or.inl ⟨rfl, Or.inl (by simp [cycleCompleteStep])⟩
    · rcases cs with _ | c
      · refine Or.inr ⟨v, v, rfl, rfl, ?_, ?_⟩ <;> simp [cycleCompleteStep]
      · let w2 : CatVisit := { v with clean_cycle_duration_seconds := some (a.timestamp.epoch - c.epoch) }
        refine Or.inr ⟨v, w2, rfl, rfl, ?_, ?_⟩ <;> simp [cycleCompleteStep, w2]
  · obtain rfl := Option.some.inj h
    exact Or.inl ⟨rfl, Or.inl rfl⟩
  · obtain rfl := Option.some.inj h
    exact Or.inl ⟨rfl, Or.inl rfl⟩

lemma foldlM_visits_sorted (l : List Activity) :
    ∀ st : PState,
    List.Pairwise (fun a b : Activity => a.timestamp.epoch ≤ b.timestamp.epoch) l →
    List.Pairwise (fun u v : CatVisit => u.timestamp.epoch ≤ v.timestamp.epoch) st.visits →
    (∀ v ∈ st.visits, ∀ b ∈ l, v.timestamp.epoch ≤ b.timestamp.epoch) →
    (∀ v, st.current_visit = some v →
       (∀ x ∈ st.visits, x.timestamp.epoch ≤ v.timestamp.epoch) ∧
       (∀ b ∈ l, v.timestamp.epoch ≤ b.timestamp.epoch)) →
    (List.foldlM processActivity st l).elim True
      (fun st' => List.Pairwise
        (fun u v : CatVisit => u.timestamp.epoch ≤ v.timestamp.epoch) st'.visits) := by
  induction l with
  | nil => intro st _ hpv _ _; simpa using hpv
  | cons a t ih =>
    intro st hsort hpv hvl hcv
    have hat : ∀ b ∈ t, a.timestamp.epoch ≤ b.timestamp.epoch :=
      (List.pairwise_cons.mp hsort).1
    have hsort' := (List.pairwise_cons.mp hsort).2
    rw [List.foldlM_cons]
    cases hp : processActivity st a with
    | none => simp
    | some st1 =>
      have hshape := processActivity_shape hp
      have hpv1 : List.Pairwise
          (fun u v : CatVisit => u.timestamp.epoch ≤ v.timestamp.epoch) st1.visits := by
        rcases hshape with ⟨hv, _⟩ | ⟨v, w, hcveq, hwts, hv, _⟩
        · rw [hv]; exact hpv
        · rw [hv, List.pairwise_append]
          refine ⟨hpv, List.pairwise_singleton _ _, ?_⟩
          intro x hx y hy
          rw [List.mem_singleton] at hy
          subst hy
          rw [hwts]
          exact (hcv v hcveq).1 x hx
      have hvl1 : ∀ v ∈ st1.visits, ∀ b ∈ t, v.timestamp.epoch ≤ b.timestamp.epoch := by
        rcases hshape with ⟨hv, _⟩ | ⟨v, w, hcveq, hwts, hv, _⟩
        · rw [hv]
          intro x hx b hb
          exact hvl x hx b (List.mem_cons_of_mem a hb)
        · rw [hv]
          intro x hx b hb
          rcases List.mem_append.mp hx with hx | hx
          · exact hvl x hx b (List.mem_cons_of_mem a hb)
          · rw [List.mem_singleton] at hx
            subst hx
            rw [hwts]
            exact (hcv v hcveq).2 b (List.mem_cons_of_mem a hb)
      have hcv1 : ∀ v, st1.current_visit = some v →
          (∀ x ∈ st1.visits, x.timestamp.epoch ≤ v.timestamp.epoch) ∧
          (∀ b ∈ t, v.timestamp.epoch ≤ b.timestamp.epoch) := by
        rcases hshape with ⟨hv, hclause⟩ | ⟨v, w, hcveq, hwts, hv, hnone⟩
        · rcases hclause with hsame | hfresh | ⟨v, w, hcveq, hweq, hwts⟩
          · intro x hx
            rw [hsame] at hx
            obtain ⟨h1, h2⟩ := hcv x hx
            exact ⟨by rw [hv]; exact h1,
                   fun b hb => h2 b (List.mem_cons_of_mem a hb)⟩
          · intro x hx
            rw [hfresh] at hx
            obtain rfl := Option.some.inj hx
            constructor
            · intro y hy
              rw [hv] at hy
              exact hvl y hy a (List.mem_cons_self a t)
            · intro b hb
              exact hat b hb
          · intro x hx
            rw [hweq] at hx
            obtain rfl := Option.some.inj hx
            obtain ⟨h1, h2⟩ := hcv v hcveq
            rw [hwts]
            exact ⟨by rw [hv]; exact h1,
                   fun b hb => h2 b (List.mem_cons_of_mem a hb)⟩
        · intro x hx
          rw [hnone] at hx
          exact Option.noConfusion hx
      simpa using ih st1 hsort' hpv1 hvl1 hcv1

/-- C5: if the chronological (reversed) order of the raw history has
non-decreasing timestamps, the visit list produced by the event loop is in
non-decreasing start-timestamp order. -/
theorem visits_sorted_of_chronological (acts : List Activity)
    (hs : List.Pairwise (fun a b : Activity => a.timestamp.epoch ≤ b.timestamp.epoch)
      acts.reverse) :
    (runReducer acts).elim True
      (fun st => List.Pairwise
        (fun u v : CatVisit => u.timestamp.epoch ≤ v.timestamp.epoch) st.visits) := by
  refine foldlM_visits_sorted acts.reverse initState hs ?_ ?_ ?_
  · simp [initState]
  · simp [initState]
  · intro v hv
    simp [initState] at hv

/-- C5 witness: a concrete four-event history, chronologically sorted, whose
reducer output has its two visits in non-decreasing timestamp order. -/
theorem visits_sorted_of_chronological_witness :
    List.Pairwise (fun a b : Activity => a.timestamp.epoch ≤ b.timestamp.epoch)
      exHistory.reverse ∧
    (runReducer exHistory).elim True
      (fun st => List.Pairwise
        (fun u v : CatVisit => u.timestamp.epoch ≤ v.timestamp.epoch) st.visits) :=
  ⟨by decide, visits_sorted_of_chronological exHistory (by decide)⟩

lemma hourCount_nil (h : Nat) : hourCount [] h = 0 := rfl

lemma hourCount_cons (k v : Nat) (rest : List (Nat × Nat)) (h : Nat) :
    hourCount ((k, v) :: rest) h = if k = h then v else hourCount rest h := by
  unfold hourCount
  by_cases hk : k = h
  · subst hk
    rw [List.find?_cons_of_pos _ (by simp)]
    simp
  · rw [List.find?_cons_of_neg _ (by simp [hk])]
    simp [hk]

lemma hourCount_bumpKey (m : List (Nat × Nat)) (k h : Nat) :
    hourCount (bumpKey m k) h = hourCount m h + (if k = h then 1 else 0) := by
  induction m with
  | nil =>
    rw [show bumpKey [] k = [(k, 1)] from rfl, hourCount_cons, hourCount_nil]
    by_cases hk : k = h <;> simp [hk]
  | cons p rest ih =>
    obtain ⟨k', v⟩ := p
    by_cases hk : k' = k
    · subst hk
      rw [show bumpKey ((k', v) :: rest) k' = (k', v + 1) :: rest from by
        simp [bumpKey]]
      rw [hourCount_cons, hourCount_cons]
      by_cases hh : k' = h <;> simp [hh]
    · rw [show bumpKey ((k', v) :: rest) k = (k', v) :: bumpKey rest k from by
        simp [bumpKey, hk]]
      rw [hourCount_cons, hourCount_cons, ih]
      by_cases hh : k' = h <;> simp [hh] <;> omega

lemma hourCount_foldl_bump (vs : List CatVisit) :
    ∀ (m : List (Nat × Nat)) (h : Nat),
    hourCount (vs.foldl (fun acc v => bumpKey acc v.timestamp.localHour.val) m) h
      = hourCount m h + vs.countP (fun v => decide (v.timestamp.localHour.val = h)) := by
  induction vs with
  | nil => intro m h; simp
  | cons v t ih =>
    intro m h
    rw [List.foldl_cons, ih, hourCount_bumpKey, List.countP_cons]
    by_cases hh : v.timestamp.localHour.val = h <;> simp [hh] <;> omega

lemma hourCount_visitsByHour (vs : List CatVisit) (h : Nat) :
    hourCount (visitsByHour vs) h
      = vs.countP (fun v => decide (v.timestamp.localHour.val = h)) := by
  simpa [hourCount_nil] using hourCount_foldl_bump vs [] h

lemma countP_or_of_not_both {α : Type} (p q : α → Bool) (vs : List α)
    (hd : ∀ x ∈ vs, ¬(p x = true ∧ q x = true)) :
    vs.countP (fun x => p x || q x) = vs.countP p + vs.countP q := by
  induction vs with
  | nil => simp
  | cons x t ih =>
    have hx := hd x (List.mem_cons_self x t)
    have ht : ∀ y ∈ t, ¬(p y = true ∧ q y = true) :=
      fun y hy => hd y (List.mem_cons_of_mem x hy)
    simp only [List.countP_cons, ih ht]
    cases hp : p x <;> cases hq : q x <;> simp_all <;> omega

lemma sum_map_countP_hours (vs : List CatVisit) :
    ∀ hs : List ℕ, hs.Nodup →
    (hs.map (fun h => vs.countP (fun v => decide (v.timestamp.localHour.val = h)))).sum
      = vs.countP (fun v => decide (v.timestamp.localHour.val ∈ hs)) := by
  intro hs
  induction hs with
  | nil =>
    intro _
    simp
  | cons h t ih =>
    intro hnd
    have hht : h ∉ t := (List.nodup_cons.mp hnd).1
    have hndt : t.Nodup := (List.nodup_cons.mp hnd).2
    rw [List.map_cons, List.sum_cons, ih hndt]
    rw [show (fun v : CatVisit => decide (v.timestamp.localHour.val ∈ h :: t))
        = (fun v : CatVisit => decide (v.timestamp.localHour.val = h)
            || decide (v.timestamp.localHour.val ∈ t)) from by
      funext v
      by_cases h1 : v.timestamp.localHour.val = h <;>
        by_cases h2 : v.timestamp.localHour.val ∈ t <;>
        simp [List.mem_cons, h1, h2]]
    rw [countP_or_of_not_both]
    intro x _ hb
    obtain ⟨h1, h2⟩ := hb
    exact hht ((of_decide_eq_true h1) ▸ of_decide_eq_true h2)

lemma period_sum (vs : List CatVisit) (lo n : ℕ) :
    ((List.range' lo n).map (hourCount (visitsByHour vs))).sum
      = specPeriodCount vs lo (lo + n) := by
  have h1 : ((List.range' lo n).map (hourCount (visitsByHour vs))).sum
      = ((List.range' lo n).map
          (fun h => vs.countP (fun v => decide (v.timestamp.localHour.val = h)))).sum := by
    congr 1
    exact List.map_congr_left (fun h _ => hourCount_visitsByHour vs h)
  rw [h1, sum_map_countP_hours vs (List.range' lo n) (List.nodup_range' lo n 1 Nat.one_pos)]
  rw [show (fun v : CatVisit => decide (v.timestamp.localHour.val ∈ List.range' lo n))
      = (fun v : CatVisit => decide (lo ≤ v.timestamp.localHour.val
          ∧ v.timestamp.localHour.val < lo + n)) from by
    funext v
    exact decide_eq_decide.mpr List.mem_range'_1]
  rw [specPeriodCount, List.countP_eq_length_filter]

lemma bumpKey_ne_nil (m : List (Nat × Nat)) (k : Nat) : bumpKey m k ≠ [] := by
  cases m with
  | nil => simp [bumpKey]
  | cons p rest =>
    obtain ⟨k', v⟩ := p
    by_cases hk : k' = k <;> simp [bumpKey, hk]

lemma foldl_bump_ne_nil (vs : List CatVisit) :
    ∀ m : List (Nat × Nat), m ≠ [] →
    vs.foldl (fun acc v => bumpKey acc v.timestamp.localHour.val) m ≠ [] := by
  induction vs with
  | nil => intro m hm; simpa using hm
  | cons v t ih =>
    intro m hm
    rw [List.foldl_cons]
    exact ih _ (bumpKey_ne_nil m v.timestamp.localHour.val)

lemma visitsByHour_ne_nil {vs : List CatVisit} (h : vs ≠ []) :
    visitsByHour vs ≠ [] := by
  cases vs with
  | nil => exact absurd rfl h
  | cons v t =>
    rw [visitsByHour, List.foldl_cons]
    exact foldl_bump_ne_nil t _ (bumpKey_ne_nil [] v.timestamp.localHour.val)

/-- C7: the time-of-day dominance rule of the classifier computes, for any
visit list, exactly the claim's description: partition the day into Night
[0,6), Morning [6,12), Afternoon [12,18), Evening [18,24), count visits per
partition, let the first-listed maximum win, and emit its label iff that
count is positive. -/
theorem time_of_day_trait_spec (vs : List CatVisit) :
    timeOfDayTrait (visitsByHour vs) = specTimeOfDayTrait vs := by
  cases hvs : vs with
  | nil => rfl
  | cons v t =>
    rw [← hvs]
    have hne : vs ≠ [] := by rw [hvs]; exact List.cons_ne_nil v t
    unfold timeOfDayTrait specTimeOfDayTrait
    rw [if_neg (by simpa [List.isEmpty_iff] using visitsByHour_ne_nil hne)]
    have e0 := period_sum vs 0 6
    have e6 := period_sum vs 6 6
    have e12 := period_sum vs 12 6
    have e18 := period_sum vs 18 6
    norm_num at e0 e6 e12 e18
    rw [e0, e6, e12, e18]
